import Mathlib

/-
Verification of the chrisbot repository against its specification.

Part 1 models the TypeScript code present in the repository snapshot:
the HTTP-based text-to-speech service (src/lib/tts-service.ts), the
POST handler of the /api/tts route, and the delete-prompt maintenance
script.  External effects (the Coqui TTS server, the filesystem) are
modelled as explicit environment records; JavaScript exceptions are
modelled with Except.

Part 2 models the GraphRAG retrieval core.  Its Python scripts
(scripts/ingest_reddit_data_ollama.py, scripts/graph_rag_query.py) are
not part of this snapshot - only their documentation, callers and tests
are - so those definitions are modelled from the specification, as
marked in their doc comments.
-/

namespace ChrisBot

/-- Options accepted by TTSService.generateSpeech (src/lib/tts-service.ts). -/
structure TTSOptions where
  text : String
  model : Option String
  outputPath : Option String
deriving DecidableEq

/-- Outcome of the fetch to the Coqui TTS server: a network error (fetch
rejects), or a response with an ok flag, a content-type that is or is not
audio, and the byte size of the returned audio blob. -/
inductive FetchResult where
  | netError
  | response (ok : Bool) (contentTypeAudio : Bool) (audioSize : Nat)
deriving DecidableEq

/-- Environment of one generateSpeech / POST call: whether the audio-directory
setup (fs.existsSync / fs.mkdirSync) completes without throwing, the result of
checkServerHealth, the fetch outcome, whether fs.writeFileSync succeeds, and
whether the output file exists afterwards (checked by the route). -/
structure TTSEnv where
  dirSetupOk : Bool
  serverHealthy : Bool
  fetch : FetchResult
  writeOk : Bool
  fileCreated : Bool
deriving DecidableEq

/-- The filename generateSpeech works with: the provided outputPath, or a
fresh name derived from Date.now(). -/
def ttsFilename (opts : TTSOptions) (now : Nat) : String :=
  match opts.outputPath with
  | some p => p
  | none => "tts_" ++ toString now ++ ".wav"

/-- The model string with its default applied. -/
def ttsModelOf (opts : TTSOptions) : String :=
  match opts.model with
  | some m => m
  | none => "tts_models/en/ljspeech/tacotron2-DDC"

/-- The try-block of TTSService.generateSpeech: browser-TTS fallback when the
server is unhealthy or the model is browser-tts, otherwise the fetch to the
Coqui server with its status, content-type, empty-audio and write checks, any
of which can throw. -/
def generateSpeechTry (env : TTSEnv) (opts : TTSOptions) (now : Nat) :
    Except String String :=
  if env.serverHealthy = false ∨ ttsModelOf opts = "browser-tts" then
    Except.ok (ttsFilename opts now)
  else
    match env.fetch with
    | FetchResult.netError => Except.error "fetch failed"
    | FetchResult.response ok ct size =>
      if ok = false then Except.error "TTS server responded with an error status"
      else if ct = false then Except.error "TTS server returned a non-audio response"
      else if size = 0 then Except.error "TTS server returned an empty audio file"
      else if env.writeOk = false then Except.error "writing the audio file failed"
      else Except.ok (ttsFilename opts now)

/-- TTSService.generateSpeech (src/lib/tts-service.ts): the audio-directory
setup runs before the try block (so its failure rejects); every error raised
inside the try block is caught and the filename is returned anyway, so the
caller can fall back to browser TTS. -/
def generateSpeech (env : TTSEnv) (opts : TTSOptions) (now : Nat) :
    Except String String :=
  if env.dirSetupOk then
    match generateSpeechTry env opts now with
    | Except.ok f => Except.ok f
    | Except.error _ => Except.ok (ttsFilename opts now)
  else Except.error "audio directory setup failed"

/-- Parsed JSON body of a POST /api/tts request. -/
structure TTSRequestBody where
  text : Option String
  model : Option String
  outputPath : Option String
deriving DecidableEq

/-- JavaScript falsiness of the text field: absent, or the empty string. -/
def textFalsy (b : TTSRequestBody) : Bool :=
  match b.text with
  | none => true
  | some t => t == ""

/-- Abstraction of the HTTP response produced by the POST /api/tts handler:
the status code, the success flag of the JSON payload (none for the plain-text
400 response), and the audioUrl field when present. -/
structure PostResponse where
  status : Nat
  success : Option Bool
  audioUrl : Option String
deriving DecidableEq

/-- The filename the route computes: the request outputPath or a Date.now()
based name. -/
def routeFilename (b : TTSRequestBody) (now : Nat) : String :=
  match b.outputPath with
  | some p => p
  | none => "tts_" ++ toString now ++ ".wav"

/-- POST handler of /api/tts: 400 when text is falsy; otherwise it builds the
full output path, ensures the audio directory, calls generateSpeech, checks
that the output file was created, and answers 200 with the public audio URL;
every throw inside the try block is answered with a 500 whose JSON payload has
success set to false. -/
def postTTS (env : TTSEnv) (body : TTSRequestBody) (now : Nat) : PostResponse :=
  match body.text with
  | none => ⟨400, none, none⟩
  | some t =>
    if t = "" then ⟨400, none, none⟩
    else
      let filename := routeFilename body now
      let fullOutputPath := "public/audio/" ++ filename
      if env.dirSetupOk then
        match generateSpeech env ⟨t, some (match body.model with
            | some m => m
            | none => "tts_models/en/ljspeech/tacotron2-DDC"), some fullOutputPath⟩ now with
        | Except.error _ => ⟨500, some false, none⟩
        | Except.ok _ =>
          if env.fileCreated then ⟨200, some true, some ("/audio/" ++ filename)⟩
          else ⟨500, some false, none⟩
      else ⟨500, some false, none⟩

/-- A system prompt as stored in data/system-prompts.json. -/
structure Prompt where
  id : String
  name : String
  content : String
deriving DecidableEq

/-- readPrompts of the delete-prompt script: the parsed prompt list, or the
empty list when the file is missing or unparsable (both are caught and mapped
to the empty list).  The file state is modelled as none when missing or
unparsable and some list when it parses. -/
def readPrompts : Option (List Prompt) → List Prompt
  | none => []
  | some ps => ps

/-- deletePrompt of the delete-prompt script: reads the prompts, filters out
every prompt whose id equals the argument, returns false without writing when
nothing was removed, and otherwise rewrites the file with the filtered list
and returns true. -/
def deletePrompt (pid : String) (file : Option (List Prompt)) :
    Bool × Option (List Prompt) :=
  let prompts := readPrompts file
  let filtered := prompts.filter (fun p => p.id != pid)
  if filtered.length = prompts.length then (false, file)
  else (true, some filtered)

/-- Modelled from the spec: provenance tag of a retrieval stage of the hybrid
retriever (the GraphRAG scripts scripts/ingest_reddit_data_ollama.py and
scripts/graph_rag_query.py are not part of this snapshot). -/
inductive Stage where
  | keyword
  | semantic
  | graphNeighbor
deriving DecidableEq

/-- Modelled from the spec: the stage order used for tie-breaking in fusion,
keyword before semantic before graph-neighbor. -/
def stagePriority : Stage → Nat
  | Stage.keyword => 0
  | Stage.semantic => 1
  | Stage.graphNeighbor => 2

/-- Modelled from the spec: one ranked retrieval result, carrying a document
id, a relevance score and the provenance tag of the stage that produced it. -/
structure DocumentResult where
  docId : Nat
  score : ℚ
  tag : Stage
deriving DecidableEq

/-- Keep the candidate with the strictly higher score; on a tie keep the
earlier (already held) candidate, which belongs to an earlier stage. -/
def pickBetter (r x : DocumentResult) : DocumentResult :=
  if r.score < x.score then x else r

/-- Modelled from the spec: the surviving entry for document d among the
stage candidates - the first candidate for d, improved by every strictly
better later candidate, so ties keep the earliest stage. -/
def bestFor (cands : List DocumentResult) (d : Nat) : Option DocumentResult :=
  match cands.filter (fun c => c.docId == d) with
  | [] => none
  | c :: cs => some (cs.foldl pickBetter c)

/-- Modelled from the spec: fusion and dedupe - one entry per distinct
document id, keeping the highest score and the tag of the stage that produced
it, ties broken in stage order. -/
def fuse (cands : List DocumentResult) : List DocumentResult :=
  ((cands.map (fun c => c.docId)).dedup).filterMap (bestFor cands)

/-- Modelled from the spec: the stage outputs laid out in stage order and
tagged with their provenance, the input of fusion. -/
def candidates (kw sem gr : List (Nat × ℚ)) : List DocumentResult :=
  kw.map (fun p => ⟨p.1, p.2, Stage.keyword⟩) ++
  sem.map (fun p => ⟨p.1, p.2, Stage.semantic⟩) ++
  gr.map (fun p => ⟨p.1, p.2, Stage.graphNeighbor⟩)

/-- How many of the three stages produced document d. -/
def stagesContaining (d : Nat) (kw sem gr : List (Nat × ℚ)) : Nat :=
  (if d ∈ kw.map Prod.fst then 1 else 0) +
  (if d ∈ sem.map Prod.fst then 1 else 0) +
  (if d ∈ gr.map Prod.fst then 1 else 0)

/-- Insert an element into a list sorted by the boolean comparison le. -/
def insertBy {α : Type} (le : α → α → Bool) (a : α) : List α → List α
  | [] => [a]
  | b :: bs => if le a b then a :: b :: bs else b :: insertBy le a bs

/-- Insertion sort by the boolean comparison le. -/
def sortBy {α : Type} (le : α → α → Bool) : List α → List α
  | [] => []
  | a :: as => insertBy le a (sortBy le as)

/-- Modelled from the spec: an abstract document of the retrieval core, with
text, author, community and optional title (the timestamp plays no role in
any claim). -/
structure Doc where
  id : Nat
  title : Option String
  body : String
  author : String
  community : String
deriving DecidableEq

/-- Modelled from the spec: the cached embedding vector of one document. -/
structure Embedding where
  docId : Nat
  vec : List ℚ
deriving DecidableEq

/-- Modelled from the spec: the persisted store the query path reads -
documents, their cached embeddings, and the mentions edges (document, entity
name, confidence weight) used for graph-neighbor expansion. -/
structure GraphStore where
  docs : List Doc
  embeddings : List Embedding
  mentions : List (Nat × String × ℚ)
deriving DecidableEq

/-- The words of a string: split on spaces, dropping empty fragments. -/
def wordsOf (s : String) : List String :=
  (s.splitOn " ").filter (fun w => w != "")

/-- The searchable text of a document: optional title plus body. -/
def searchText (d : Doc) : String :=
  (match d.title with | some t => t ++ " " | none => "") ++ d.body

/-- Modelled from the spec: full-text match of the query against document
bodies and titles, case-insensitive, true when some query word occurs in the
document words. -/
def keywordMatch (q : String) (d : Doc) : Bool :=
  (wordsOf q.toLower).any (fun w => (wordsOf (searchText d).toLower).contains w)

/-- Modelled from the spec: the fixed high weight of a keyword hit. -/
def keywordWeight : ℚ := 1

/-- Modelled from the spec: the keyword stage - every matching document with
the fixed keyword weight. -/
def keywordStage (g : GraphStore) (q : String) : List (Nat × ℚ) :=
  (g.docs.filter (keywordMatch q)).map (fun d => (d.id, keywordWeight))

/-- Modelled from the spec: nearest-neighbor lookup of the embedding index -
every embedded document scored by the similarity function, sorted descending
by score, truncated to k. -/
def nearest (embs : List Embedding) (sim : List ℚ → List ℚ → ℚ)
    (qv : List ℚ) (k : Nat) : List (Nat × ℚ) :=
  (sortBy (fun a b => decide (b.2 ≤ a.2))
    (embs.map (fun e => (e.docId, sim e.vec qv)))).take k

/-- Modelled from the spec: the semantic stage - skipped (empty) when the
query embedding is unavailable; otherwise embeddings whose dimension
mismatches the query vector are excluded and the top limit*3 by similarity
are returned. -/
def semanticStage (g : GraphStore) (sim : List ℚ → List ℚ → ℚ)
    (qvec : Option (List ℚ)) (limit : Nat) : List (Nat × ℚ) :=
  match qvec with
  | none => []
  | some qv =>
    nearest (g.embeddings.filter (fun e => e.vec.length == qv.length))
      sim qv (limit * 3)

/-- Modelled from the spec: the fixed discount weight of a graph neighbor. -/
def graphDiscountWeight : ℚ := mkRat 4 5

/-- Two documents share a mentioned entity. -/
def sharesEntity (g : GraphStore) (a b : Nat) : Bool :=
  g.mentions.any (fun m =>
    m.1 == a && g.mentions.any (fun m2 => m2.1 == b && m2.2.1 == m.2.1))

/-- The community of a document id, when the document exists. -/
def communityOf (g : GraphStore) (i : Nat) : Option String :=
  (g.docs.find? (fun d => d.id == i)).map (fun d => d.community)

/-- Two documents belong to the same community. -/
def sharesCommunity (g : GraphStore) (a b : Nat) : Bool :=
  match communityOf g a, communityOf g b with
  | some c1, some c2 => c1 == c2
  | _, _ => false

/-- Modelled from the spec: the documents reachable from document a within
depth 2 (document to entity to document, document to community to
document). -/
def neighborDocs (g : GraphStore) (a : Nat) : List Nat :=
  (g.docs.filter (fun d =>
    (d.id != a) && (sharesEntity g a d.id || sharesCommunity g a d.id))).map
    (fun d => d.id)

/-- Modelled from the spec: the graph-neighbor stage - connected documents not
already selected by stages 1-2, scored by the discount weight times the
originating score. -/
def graphStage (g : GraphStore) (seeds : List (Nat × ℚ)) : List (Nat × ℚ) :=
  (seeds.map (fun p =>
    (neighborDocs g p.1).filterMap (fun n =>
      if n ∈ seeds.map Prod.fst then none
      else some (n, graphDiscountWeight * p.2)))).flatten

/-- Modelled from the spec: the rank order - score descending, stable
tie-break by document id. -/
def rankLe (a b : DocumentResult) : Bool :=
  decide (b.score < a.score) ||
  (decide (a.score = b.score) && decide (a.docId ≤ b.docId))

/-- Modelled from the spec: the rank step, sorting fused results. -/
def rank (rs : List DocumentResult) : List DocumentResult :=
  sortBy rankLe rs

/-- Modelled from the spec: the hybrid retriever - keyword, semantic and
graph-neighbor stages, fusion and dedupe, rank, truncate to limit.  The
embedding service is abstracted as the optional query vector qvec and the
similarity function sim. -/
def query (g : GraphStore) (sim : List ℚ → List ℚ → ℚ)
    (qvec : Option (List ℚ)) (q : String) (limit : Nat) : List DocumentResult :=
  let kw := keywordStage g q
  let sem := semanticStage g sim qvec limit
  let seeds := kw ++ sem
  let gr := graphStage g seeds
  (rank (fuse (candidates kw sem gr))).take limit

/-- The body text of a document id, empty when absent. -/
def bodyOf (g : GraphStore) (i : Nat) : String :=
  match g.docs.find? (fun d => d.id == i) with
  | some d => d.body
  | none => ""

/-- The title line of a document id, empty when absent. -/
def titleOf (g : GraphStore) (i : Nat) : String :=
  match g.docs.find? (fun d => d.id == i) with
  | some d => (match d.title with | some t => t | none => "")
  | none => ""

/-- Modelled from the spec: the fixed instructional trailer appended to every
non-empty context block. -/
def contextTrailer : String :=
  "\n\nUse this context to provide informed, factual responses grounded in the supplied context."

/-- Modelled from the spec: one indexed block of the formatted context. -/
def formatBlock (g : GraphStore) (p : Nat × DocumentResult) : String :=
  "[" ++ toString (p.1 + 1) ++ "] Title: " ++ titleOf g p.2.docId ++
  "\nContent: " ++ bodyOf g p.2.docId

/-- Modelled from the spec: the context formatter - the empty string on empty
input, otherwise the indexed blocks truncated (by characters, never splitting
a character) to maxChars, plus the fixed trailer. -/
def format (g : GraphStore) (results : List DocumentResult) (maxChars : Nat) :
    String :=
  match results with
  | [] => ""
  | _ =>
    (String.intercalate "\n\n" (results.enum.map (formatBlock g))).take maxChars
      ++ contextTrailer

/-- Modelled from the spec: the default bound on context characters. -/
def defaultMaxContextChars : Nat := 2000

/-- Modelled from the spec: the query interface exposed to the chat caller -
the persisted graph is none when missing or corrupt, in which case the
retrieval is unavailable and the empty context is returned; otherwise the
hybrid retriever runs and its results are formatted. -/
def retrieve (store : Option GraphStore) (sim : List ℚ → List ℚ → ℚ)
    (qvec : Option (List ℚ)) (q : String) (limit : Nat) : String :=
  match store with
  | none => ""
  | some g => format g (query g sim qvec q limit) defaultMaxContextChars

/-- Modelled from the spec: the closed set of entity types. -/
inductive EntityType where
  | place
  | organization
  | person
  | concept
  | product
  | other
deriving DecidableEq

/-- Modelled from the spec: one extracted entity with its type and a
confidence in the unit interval. -/
structure Entity where
  name : String
  etype : EntityType
  confidence : ℚ
deriving DecidableEq

/-- Modelled from the spec: the outcome of the external text-understanding
service call - a parsed structured response, or one of the failure modes
(connection refused, timeout, unparsable output). -/
inductive ServiceOutcome where
  | ok (entities : List Entity) (sentiment : ℚ)
  | unavailable
  | timeout
  | malformed
deriving DecidableEq

/-- True on the failure modes of the service. -/
def isServiceFailure : ServiceOutcome → Bool
  | ServiceOutcome.ok _ _ => false
  | _ => true

/-- A word starting with an uppercase character. -/
def isCapitalized (w : String) : Bool :=
  match w.data with
  | [] => false
  | c :: _ => c.isUpper

/-- Modelled from the spec: the lower confidence assigned by the fallback
heuristic. -/
def fallbackConfidence : ℚ := mkRat 1 2

/-- Modelled from the spec: the deterministic local heuristic - regex-based
capitalized-phrase extraction, modelled as the distinct capitalized words of
the text, each a lower-confidence entity. -/
def heuristicEntities (text : String) : List Entity :=
  ((wordsOf text).filter isCapitalized).dedup.map
    (fun w => ⟨w, EntityType.other, fallbackConfidence⟩)

/-- Modelled from the spec: the fallback extraction result - heuristic
entities and the neutral sentiment 0. -/
def fallbackExtract (text : String) : List Entity × ℚ :=
  (heuristicEntities text, 0)

/-- Modelled from the spec: extract - the parsed service response on the
primary path, the deterministic fallback on every failure mode; total, so
extraction never aborts. -/
def extract (o : ServiceOutcome) (text : String) : List Entity × ℚ :=
  match o with
  | ServiceOutcome.ok es s => (es, s)
  | _ => fallbackExtract text

/-- A document together with its extraction results. -/
structure IngestedDoc where
  doc : Doc
  entities : List Entity
  sentiment : ℚ
deriving DecidableEq

/-- Modelled from the spec: the per-document ingestion step applied to a
batch - every document is extracted (primary path or fallback) and none is
dropped. -/
def ingestDocs (o : ServiceOutcome) (docs : List Doc) : List IngestedDoc :=
  docs.map (fun d => ⟨d, (extract o d.body).1, (extract o d.body).2⟩)

/-- Modelled from the spec: an entity node with its running statistics. -/
structure EntityNode where
  name : String
  etype : EntityType
  occurrences : Nat
  avgConfidence : ℚ
  avgSentiment : ℚ
deriving DecidableEq

/-- Modelled from the spec: a node of the knowledge graph - document, author,
community or entity. -/
inductive GNode where
  | doc (d : Doc)
  | author (name : String)
  | community (name : String)
  | entity (e : EntityNode)
deriving DecidableEq

/-- Modelled from the spec: a typed edge of the knowledge graph. -/
inductive GEdge where
  | authored (author : String) (docId : Nat)
  | belongsTo (docId : Nat) (community : String)
  | mentions (docId : Nat) (entity : String) (weight : ℚ)
deriving DecidableEq

/-- Modelled from the spec: the knowledge graph, a directed multigraph given
by its node and edge lists. -/
structure Graph where
  nodes : List GNode
  edges : List GEdge
deriving DecidableEq

/-- One row of the persisted graph artifact: a flat record able to hold any
node or edge variant. -/
structure SerRow where
  tag : Nat
  n1 : Nat
  n2 : Nat
  b1 : Bool
  s1 : String
  s2 : String
  s3 : String
  s4 : String
  q1 : ℚ
  q2 : ℚ
deriving DecidableEq

/-- Numeric code of an entity type in the persisted artifact. -/
def encodeEntityType : EntityType → Nat
  | EntityType.place => 0
  | EntityType.organization => 1
  | EntityType.person => 2
  | EntityType.concept => 3
  | EntityType.product => 4
  | EntityType.other => 5

/-- Decoding of an entity type code. -/
def decodeEntityType : Nat → Option EntityType
  | 0 => some EntityType.place
  | 1 => some EntityType.organization
  | 2 => some EntityType.person
  | 3 => some EntityType.concept
  | 4 => some EntityType.product
  | 5 => some EntityType.other
  | _ => none

/-- Modelled from the spec: serialization of one graph node into a row. -/
def encodeNode : GNode → SerRow
  | GNode.doc d =>
    ⟨0, d.id, 0, d.title.isSome, (match d.title with | some t => t | none => ""),
      d.body, d.author, d.community, 0, 0⟩
  | GNode.author n => ⟨1, 0, 0, false, n, "", "", "", 0, 0⟩
  | GNode.community n => ⟨2, 0, 0, false, n, "", "", "", 0, 0⟩
  | GNode.entity e =>
    ⟨3, e.occurrences, encodeEntityType e.etype, false, e.name, "", "", "",
      e.avgConfidence, e.avgSentiment⟩

/-- Modelled from the spec: deserialization of one graph node row. -/
def decodeNode (r : SerRow) : Option GNode :=
  match r.tag with
  | 0 => some (GNode.doc ⟨r.n1, (if r.b1 then some r.s1 else none), r.s2, r.s3, r.s4⟩)
  | 1 => some (GNode.author r.s1)
  | 2 => some (GNode.community r.s1)
  | 3 =>
    match decodeEntityType r.n2 with
    | some t => some (GNode.entity ⟨r.s1, t, r.n1, r.q1, r.q2⟩)
    | none => none
  | _ => none

/-- Modelled from the spec: serialization of one graph edge into a row. -/
def encodeEdge : GEdge → SerRow
  | GEdge.authored a d => ⟨0, d, 0, false, a, "", "", "", 0, 0⟩
  | GEdge.belongsTo d c => ⟨1, d, 0, false, c, "", "", "", 0, 0⟩
  | GEdge.mentions d e w => ⟨2, d, 0, false, e, "", "", "", w, 0⟩

/-- Modelled from the spec: deserialization of one graph edge row. -/
def decodeEdge (r : SerRow) : Option GEdge :=
  match r.tag with
  | 0 => some (GEdge.authored r.s1 r.n1)
  | 1 => some (GEdge.belongsTo r.n1 r.s1)
  | 2 => some (GEdge.mentions r.n1 r.s1 r.q1)
  | _ => none

/-- Decode a list of rows, failing when any row fails. -/
def decodeAll {α : Type} (dec : SerRow → Option α) : List SerRow → Option (List α)
  | [] => some []
  | r :: rs =>
    match dec r, decodeAll dec rs with
    | some a, some as => some (a :: as)
    | _, _ => none

/-- Modelled from the spec: the persisted graph artifact. -/
structure SerializedGraph where
  nodeRows : List SerRow
  edgeRows : List SerRow
deriving DecidableEq

/-- Modelled from the spec: writing the persisted graph artifact. -/
def save (g : Graph) : SerializedGraph :=
  ⟨g.nodes.map encodeNode, g.edges.map encodeEdge⟩

/-- Modelled from the spec: loading the persisted graph artifact; none on a
corrupt artifact. -/
def load (s : SerializedGraph) : Option Graph :=
  match decodeAll decodeNode s.nodeRows, decodeAll decodeEdge s.edgeRows with
  | some ns, some es => some ⟨ns, es⟩
  | _, _ => none

/-- Modelled from the spec: one raw entity mention produced by extraction,
before merging. -/
structure RawEntity where
  name : String
  etype : EntityType
  confidence : ℚ
  sentiment : ℚ
deriving DecidableEq

/-- Modelled from the spec: the normalized entity name - case-folded and
whitespace-collapsed. -/
def normalizeName (s : String) : String :=
  String.intercalate " " (wordsOf s.toLower)

/-- Modelled from the spec: merge one raw mention into the entity node list -
a node with the same normalized name absorbs it with running averages
weighted by occurrence count, otherwise a fresh node is appended. -/
def addRaw : List EntityNode → RawEntity → List EntityNode
  | [], r => [⟨normalizeName r.name, r.etype, 1, r.confidence, r.sentiment⟩]
  | e :: es, r =>
    if e.name = normalizeName r.name then
      ⟨e.name, e.etype, e.occurrences + 1,
        (e.avgConfidence * (e.occurrences : ℚ) + r.confidence) / ((e.occurrences : ℚ) + 1),
        (e.avgSentiment * (e.occurrences : ℚ) + r.sentiment) / ((e.occurrences : ℚ) + 1)⟩ :: es
    else e :: addRaw es r

/-- Modelled from the spec: merging all raw mentions into entity nodes. -/
def mergeEntities (rs : List RawEntity) : List EntityNode :=
  rs.foldl addRaw []

/-- Modelled from the spec: the knowledge-graph builder - document, author,
community and merged entity nodes, with authored, belongs_to and
confidence-weighted mentions edges. -/
def build (documents : List Doc) (authors : List String)
    (communities : List String) (rawEntities : List (Nat × RawEntity)) : Graph :=
  ⟨documents.map GNode.doc ++ authors.dedup.map GNode.author ++
      communities.dedup.map GNode.community ++
      (mergeEntities (rawEntities.map Prod.snd)).map GNode.entity,
    documents.map (fun d => GEdge.authored d.author d.id) ++
      documents.map (fun d => GEdge.belongsTo d.id d.community) ++
      rawEntities.map (fun p =>
        GEdge.mentions p.1 (normalizeName p.2.name) p.2.confidence)⟩

end ChrisBot

namespace ChrisBot

theorem generateSpeechTry_ok (env : TTSEnv) (opts : TTSOptions) (now : Nat)
    (f : String) (h : generateSpeechTry env opts now = Except.ok f) :
    f = ttsFilename opts now := by
  unfold generateSpeechTry at h
  split at h
  · exact (Except.ok.injEq _ _).mp h.symm
  · split at h
    · exact absurd h (by simp)
    · split at h
      · exact absurd h (by simp)
      · split at h
        · exact absurd h (by simp)
        · split at h
          · exact absurd h (by simp)
          · split at h
            · exact absurd h (by simp)
            · exact (Except.ok.injEq _ _).mp h.symm

theorem generateSpeech_ok_of_dirSetupOk (env : TTSEnv) (opts : TTSOptions)
    (now : Nat) (h : env.dirSetupOk = true) :
    generateSpeech env opts now = Except.ok (ttsFilename opts now) := by
  unfold generateSpeech
  rw [if_pos h]
  cases htry : generateSpeechTry env opts now with
  | ok f => rw [generateSpeechTry_ok env opts now f htry]
  | error e => rfl

/-- Claim C9: for every TTSOptions input whose audio-directory setup does not
throw, TTSService.generateSpeech (the HTTP-server implementation) always
resolves with the filename and never rejects: server unreachable, non-OK
status, non-audio content and empty audio are all caught and the filename is
still returned so the caller can fall back to browser TTS. -/
theorem generateSpeech_never_rejects (env : TTSEnv) (opts : TTSOptions)
    (now : Nat) (h : env.dirSetupOk = true) :
    generateSpeech env opts now = Except.ok (ttsFilename opts now) :=
  generateSpeech_ok_of_dirSetupOk env opts now h

theorem generateSpeech_never_rejects_witness :
    (⟨true, false, FetchResult.netError, true, false⟩ : TTSEnv).dirSetupOk = true ∧
    generateSpeech ⟨true, false, FetchResult.netError, true, false⟩
      ⟨"hello", none, none⟩ 7 =
      Except.ok (ttsFilename ⟨"hello", none, none⟩ 7) :=
  ⟨rfl, generateSpeech_never_rejects ⟨true, false, FetchResult.netError, true, false⟩
    ⟨"hello", none, none⟩ 7 rfl⟩

/-- Claim C10: the POST handler of /api/tts answers 400 exactly when the
parsed body has an absent or falsy text field; for every other parsed body it
answers 200 with success true and an audioUrl of the form /audio/filename, or
500 with success false when generation fails or the output file was not
created. -/
theorem postTTS_status_contract (env : TTSEnv) (body : TTSRequestBody)
    (now : Nat) :
    ((postTTS env body now).status = 400 ↔ textFalsy body = true) ∧
    (textFalsy body = false →
      ((postTTS env body now).status = 200 ∧
        (postTTS env body now).success = some true ∧
        (postTTS env body now).audioUrl =
          some ("/audio/" ++ routeFilename body now)) ∨
      ((postTTS env body now).status = 500 ∧
        (postTTS env body now).success = some false)) := by
  cases hb : body.text with
  | none =>
    constructor
    · simp [postTTS, hb, textFalsy]
    · intro hf
      simp [textFalsy, hb] at hf
  | some t =>
    by_cases ht : t = ""
    · constructor
      · simp [postTTS, hb, ht, textFalsy]
      · intro hf
        simp [textFalsy, hb, ht] at hf
    · have hfalsy : textFalsy body = false := by simp [textFalsy, hb, ht]
      constructor
      · rw [hfalsy]
        simp only [Bool.false_eq_true, iff_false]
        cases hd : env.dirSetupOk with
        | false => simp [postTTS, hb, ht, hd]
        | true =>
          rw [postTTS]
          simp only [hb, if_neg ht, hd, if_true]
          rw [generateSpeech_ok_of_dirSetupOk _ _ _ hd]
          cases hc : env.fileCreated <;> simp
      · intro _
        cases hd : env.dirSetupOk with
        | false =>
          right
          simp [postTTS, hb, ht, hd]
        | true =>
          rw [postTTS]
          simp only [hb, if_neg ht, hd, if_true]
          rw [generateSpeech_ok_of_dirSetupOk _ _ _ hd]
          cases hc : env.fileCreated with
          | false => right; simp
          | true => left; simp

theorem postTTS_status_contract_witness :
    textFalsy ⟨some "hi", none, none⟩ = false ∧
    (((postTTS ⟨true, true, FetchResult.response true true 4, true, true⟩
        ⟨some "hi", none, none⟩ 7).status = 200 ∧
      (postTTS ⟨true, true, FetchResult.response true true 4, true, true⟩
        ⟨some "hi", none, none⟩ 7).success = some true ∧
      (postTTS ⟨true, true, FetchResult.response true true 4, true, true⟩
        ⟨some "hi", none, none⟩ 7).audioUrl =
        some ("/audio/" ++ routeFilename ⟨some "hi", none, none⟩ 7)) ∨
     ((postTTS ⟨true, true, FetchResult.response true true 4, true, true⟩
        ⟨some "hi", none, none⟩ 7).status = 500 ∧
      (postTTS ⟨true, true, FetchResult.response true true 4, true, true⟩
        ⟨some "hi", none, none⟩ 7).success = some false)) :=
  ⟨rfl, (postTTS_status_contract ⟨true, true, FetchResult.response true true 4, true, true⟩
    ⟨some "hi", none, none⟩ 7).2 rfl⟩

/-- Claim C8: deletePrompt returns true exactly when the prompts file parses
to a list containing a prompt with the given id; when it returns true the
file is rewritten with exactly the prompts whose id differs, and when it
returns false (including the missing or unparsable file, where readPrompts
yields the empty list) the file is left unmodified. -/
theorem deletePrompt_contract (pid : String) (file : Option (List Prompt)) :
    ((deletePrompt pid file).1 = true ↔ ∃ p ∈ readPrompts file, p.id = pid) ∧
    ((deletePrompt pid file).1 = true →
      (deletePrompt pid file).2 =
        some ((readPrompts file).filter (fun p => p.id != pid))) ∧
    ((deletePrompt pid file).1 = false → (deletePrompt pid file).2 = file) := by
  by_cases h : ((readPrompts file).filter (fun p => p.id != pid)).length =
      (readPrompts file).length
  · have hall : ∀ p ∈ readPrompts file, p.id ≠ pid := by
      intro p hp
      have := List.filter_length_eq_length.mp h p hp
      simpa using this
    have hd : deletePrompt pid file = (false, file) := by
      simp only [deletePrompt, if_pos h]
    rw [hd]
    refine ⟨?_, ?_, ?_⟩
    · constructor
      · intro hfalse
        exact absurd hfalse (by simp)
      · rintro ⟨p, hp, hid⟩
        exact absurd hid (hall p hp)
    · intro htrue
      exact absurd htrue (by simp)
    · intro _
      rfl
  · have hex : ∃ p ∈ readPrompts file, p.id = pid := by
      by_contra hno
      push_neg at hno
      exact h (List.filter_length_eq_length.mpr (fun p hp => by
        simpa using hno p hp))
    have hd : deletePrompt pid file =
        (true, some ((readPrompts file).filter (fun p => p.id != pid))) := by
      simp only [deletePrompt, if_neg h]
    rw [hd]
    refine ⟨?_, ?_, ?_⟩
    · exact iff_of_true rfl hex
    · intro _
      rfl
    · intro hfalse
      exact absurd hfalse (by simp)

theorem mem_insertBy {α : Type} (le : α → α → Bool) (a x : α) (l : List α) :
    x ∈ insertBy le a l ↔ x = a ∨ x ∈ l := by
  induction l with
  | nil => simp [insertBy]
  | cons b bs ih =>
    simp only [insertBy]
    split
    · simp [List.mem_cons]
    · simp [List.mem_cons, ih]
      tauto

theorem length_insertBy {α : Type} (le : α → α → Bool) (a : α) (l : List α) :
    (insertBy le a l).length = l.length + 1 := by
  induction l with
  | nil => rfl
  | cons b bs ih =>
    simp only [insertBy]
    split
    · rfl
    · simp [ih]

theorem pairwise_insertBy {α : Type} (R : α → α → Prop) (le : α → α → Bool)
    (hle : ∀ a b, le a b = true → R a b)
    (hnle : ∀ a b, le a b = false → R b a)
    (htrans : ∀ a b c, R a b → R b c → R a c)
    (a : α) (l : List α) (hp : l.Pairwise R) :
    (insertBy le a l).Pairwise R := by
  induction l with
  | nil => simp [insertBy]
  | cons b bs ih =>
    rcases List.pairwise_cons.mp hp with ⟨hb, hbs⟩
    simp only [insertBy]
    cases h : le a b with
    | true =>
      refine List.pairwise_cons.mpr ⟨?_, hp⟩
      intro x hx
      rcases List.mem_cons.mp hx with rfl | hx
      · exact hle a x h
      · exact htrans a b x (hle a b h) (hb x hx)
    | false =>
      refine List.pairwise_cons.mpr ⟨?_, ih hbs⟩
      intro x hx
      rcases (mem_insertBy le a x bs).mp hx with rfl | hx
      · exact hnle x b h
      · exact hb x hx

theorem pairwise_sortBy {α : Type} (R : α → α → Prop) (le : α → α → Bool)
    (hle : ∀ a b, le a b = true → R a b)
    (hnle : ∀ a b, le a b = false → R b a)
    (htrans : ∀ a b c, R a b → R b c → R a c)
    (l : List α) : (sortBy le l).Pairwise R := by
  induction l with
  | nil => simp [sortBy]
  | cons a as ih => exact pairwise_insertBy R le hle hnle htrans a (sortBy le as) ih

theorem mem_sortBy {α : Type} (le : α → α → Bool) (x : α) (l : List α) :
    x ∈ sortBy le l ↔ x ∈ l := by
  induction l with
  | nil => simp [sortBy]
  | cons a as ih =>
    simp only [sortBy, mem_insertBy, List.mem_cons, ih]

theorem length_sortBy {α : Type} (le : α → α → Bool) (l : List α) :
    (sortBy le l).length = l.length := by
  induction l with
  | nil => rfl
  | cons a as ih => simp [sortBy, length_insertBy, ih]

/-- Claim C4: nearest returns (document id, score) pairs sorted descending by
score, and when fewer than k documents are embedded it returns them all
rather than failing. -/
theorem nearest_contract (embs : List Embedding) (sim : List ℚ → List ℚ → ℚ)
    (qv : List ℚ) (k : Nat) :
    (nearest embs sim qv k).Pairwise
      (fun a b : Nat × ℚ => b.2 ≤ a.2) ∧
    (embs.length < k →
      (nearest embs sim qv k).length = embs.length ∧
      ∀ e ∈ embs, (e.docId, sim e.vec qv) ∈ nearest embs sim qv k) := by
  have hsorted : (sortBy (fun a b : Nat × ℚ => decide (b.2 ≤ a.2))
      (embs.map (fun e => (e.docId, sim e.vec qv)))).Pairwise
      (fun a b : Nat × ℚ => b.2 ≤ a.2) := by
    refine pairwise_sortBy _ _ ?_ ?_ ?_ _
    · intro a b h
      exact of_decide_eq_true h
    · intro a b h
      exact le_of_not_le (of_decide_eq_false h)
    · intro a b c h1 h2
      exact le_trans h2 h1
  constructor
  · exact hsorted.sublist (List.take_sublist _ _)
  · intro hk
    have hlen : (sortBy (fun a b : Nat × ℚ => decide (b.2 ≤ a.2))
        (embs.map (fun e => (e.docId, sim e.vec qv)))).length = embs.length := by
      rw [length_sortBy, List.length_map]
    have htake : nearest embs sim qv k =
        sortBy (fun a b : Nat × ℚ => decide (b.2 ≤ a.2))
          (embs.map (fun e => (e.docId, sim e.vec qv))) := by
      unfold nearest
      exact List.take_of_length_le (by rw [hlen]; exact Nat.le_of_lt hk)
    constructor
    · rw [htake, hlen]
    · intro e he
      rw [htake, mem_sortBy]
      exact List.mem_map_of_mem _ he

theorem nearest_contract_witness :
    ([⟨1, [1]⟩] : List Embedding).length < 2 ∧
    ((nearest [⟨1, [1]⟩] (fun _ _ => 0) [1] 2).length =
        ([⟨1, [1]⟩] : List Embedding).length ∧
      ∀ e ∈ ([⟨1, [1]⟩] : List Embedding),
        (e.docId, (fun _ _ => (0 : ℚ)) e.vec [1]) ∈
          nearest [⟨1, [1]⟩] (fun _ _ => 0) [1] 2) :=
  ⟨by decide,
   (nearest_contract [⟨1, [1]⟩] (fun _ _ => 0) [1] 2).2 (by decide)⟩

theorem foldl_pickBetter_props (l : List DocumentResult) :
    ∀ init : DocumentResult,
      (l.foldl pickBetter init ∈ init :: l) ∧
      (∀ x ∈ init :: l, x.score ≤ (l.foldl pickBetter init).score) ∧
      (l.foldl pickBetter init = init ∨
        init.score < (l.foldl pickBetter init).score) := by
  induction l with
  | nil =>
    intro init
    refine ⟨by simp, ?_, Or.inl rfl⟩
    intro x hx
    simp at hx
    subst hx
    exact le_refl _
  | cons c cs ih =>
    intro init
    have hfold : (c :: cs).foldl pickBetter init =
        cs.foldl pickBetter (pickBetter init c) := rfl
    obtain ⟨hmem, hle, hstrict⟩ := ih (pickBetter init c)
    by_cases h : init.score < c.score
    · have hpick : pickBetter init c = c := by simp [pickBetter, h]
      rw [hpick] at hmem hle hstrict
      refine ⟨?_, ?_, ?_⟩
      · rw [hfold, hpick]
        exact List.mem_cons_of_mem _ hmem
      · intro x hx
        rw [hfold, hpick]
        rcases List.mem_cons.mp hx with rfl | hx2
        · exact le_trans (le_of_lt h) (hle c (List.mem_cons_self _ _))
        · exact hle x hx2
      · rw [hfold, hpick]
        rcases hstrict with h1 | h1
        · right
          rw [h1]
          exact h
        · right
          exact lt_trans h h1
    · have hpick : pickBetter init c = init := by simp [pickBetter, h]
      rw [hpick] at hmem hle hstrict
      refine ⟨?_, ?_, ?_⟩
      · rw [hfold, hpick]
        rcases List.mem_cons.mp hmem with h1 | h1
        · exact List.mem_cons.mpr (Or.inl h1)
        · exact List.mem_cons_of_mem _ (List.mem_cons_of_mem _ h1)
      · intro x hx
        rw [hfold, hpick]
        rcases List.mem_cons.mp hx with rfl | hx2
        · exact hle x (List.mem_cons_self _ _)
        · rcases List.mem_cons.mp hx2 with rfl | hx3
          · exact le_trans (le_of_not_lt h) (hle init (List.mem_cons_self _ _))
          · exact hle x (List.mem_cons_of_mem _ hx3)
      · rw [hfold, hpick]
        exact hstrict

theorem foldl_pickBetter_tie (l : List DocumentResult) :
    ∀ init : DocumentResult,
      (init :: l).Pairwise
        (fun a b => stagePriority a.tag ≤ stagePriority b.tag) →
      ∀ x ∈ init :: l, x.score = (l.foldl pickBetter init).score →
        stagePriority (l.foldl pickBetter init).tag ≤ stagePriority x.tag := by
  induction l with
  | nil =>
    intro init _ x hx _
    simp at hx
    subst hx
    exact le_refl _
  | cons c cs ih =>
    intro init hp x hx hs
    rcases List.pairwise_cons.mp hp with ⟨hinit, hcl⟩
    rcases List.pairwise_cons.mp hcl with ⟨hc, hcs⟩
    have hfold : (c :: cs).foldl pickBetter init =
        cs.foldl pickBetter (pickBetter init c) := rfl
    rw [hfold] at hs ⊢
    by_cases h : init.score < c.score
    · have hpick : pickBetter init c = c := by simp [pickBetter, h]
      rw [hpick] at hs ⊢
      rcases List.mem_cons.mp hx with rfl | hx2
      · obtain ⟨-, hle, -⟩ := foldl_pickBetter_props cs c
        have hcle := hle c (List.mem_cons_self _ _)
        have hlt : x.score < (cs.foldl pickBetter c).score :=
          lt_of_lt_of_le h hcle
        rw [← hs] at hlt
        exact absurd hlt (lt_irrefl _)
      · exact ih c hcl x hx2 hs
    · have hpick : pickBetter init c = init := by simp [pickBetter, h]
      rw [hpick] at hs ⊢
      have hp2 : (init :: cs).Pairwise
          (fun a b => stagePriority a.tag ≤ stagePriority b.tag) := by
        refine List.pairwise_cons.mpr ⟨?_, hcs⟩
        intro y hy
        exact hinit y (List.mem_cons_of_mem _ hy)
      rcases List.mem_cons.mp hx with hx1 | hx2
      · exact ih init hp2 x (List.mem_cons.mpr (Or.inl hx1)) hs
      · rcases List.mem_cons.mp hx2 with rfl | hx3
        · obtain ⟨-, -, hstrict⟩ := foldl_pickBetter_props cs init
          rcases hstrict with h1 | h1
          · rw [h1]
            exact hinit x (List.mem_cons_self _ _)
          · have hxle : x.score ≤ init.score := le_of_not_lt h
            rw [hs] at hxle
            exact absurd h1 (not_lt.mpr hxle)
        · exact ih init hp2 x (List.mem_cons_of_mem _ hx3) hs

theorem bestFor_docId (cands : List DocumentResult) (d : Nat)
    (r : DocumentResult) (h : bestFor cands d = some r) : r.docId = d := by
  unfold bestFor at h
  cases hf : cands.filter (fun c => c.docId == d) with
  | nil =>
    rw [hf] at h
    exact absurd h (by simp)
  | cons c cs =>
    rw [hf] at h
    injection h with h
    obtain ⟨hmem, -, -⟩ := foldl_pickBetter_props cs c
    rw [h] at hmem
    have hrf : r ∈ cands.filter (fun c => c.docId == d) := by
      rw [hf]
      exact hmem
    simpa using (List.mem_filter.mp hrf).2

theorem bestFor_spec (cands : List DocumentResult) (d : Nat)
    (r : DocumentResult)
    (hp : cands.Pairwise (fun a b => stagePriority a.tag ≤ stagePriority b.tag))
    (h : bestFor cands d = some r) :
    r ∈ cands ∧ r.docId = d ∧
    (∀ c ∈ cands, c.docId = d → c.score ≤ r.score) ∧
    (∀ c ∈ cands, c.docId = d → c.score = r.score →
      stagePriority r.tag ≤ stagePriority c.tag) := by
  have hrd : r.docId = d := bestFor_docId cands d r h
  unfold bestFor at h
  cases hf : cands.filter (fun c => c.docId == d) with
  | nil =>
    rw [hf] at h
    exact absurd h (by simp)
  | cons c cs =>
    rw [hf] at h
    injection h with h
    obtain ⟨hmem, hle, -⟩ := foldl_pickBetter_props cs c
    rw [h] at hmem hle
    have hrcands : r ∈ cands := by
      have : r ∈ cands.filter (fun c => c.docId == d) := by
        rw [hf]
        exact hmem
      exact List.mem_of_mem_filter this
    refine ⟨hrcands, hrd, ?_, ?_⟩
    · intro x hx hxd
      have hxf : x ∈ cands.filter (fun c => c.docId == d) :=
        List.mem_filter.mpr ⟨hx, by simp [hxd]⟩
      rw [hf] at hxf
      exact hle x hxf
    · have hp2 : (c :: cs).Pairwise
          (fun a b => stagePriority a.tag ≤ stagePriority b.tag) := by
        rw [← hf]
        exact hp.filter _
      intro x hx hxd hxs
      have hxf : x ∈ cands.filter (fun c => c.docId == d) :=
        List.mem_filter.mpr ⟨hx, by simp [hxd]⟩
      rw [hf] at hxf
      have := foldl_pickBetter_tie cs c hp2 x hxf (by rw [← h] at hxs; exact hxs)
      rw [h] at this
      exact this

theorem bestFor_isSome_of_mem (cands : List DocumentResult) (d : Nat)
    (h : d ∈ cands.map (fun c => c.docId)) :
    (bestFor cands d).isSome = true := by
  obtain ⟨c, hc, rfl⟩ := List.mem_map.mp h
  unfold bestFor
  cases hf : cands.filter (fun x => x.docId == c.docId) with
  | nil =>
    have hcf : c ∈ cands.filter (fun x => x.docId == c.docId) :=
      List.mem_filter.mpr ⟨hc, by simp⟩
    rw [hf] at hcf
    exact absurd hcf (by simp)
  | cons a as => rfl

theorem pairwise_of_forall_mem {α : Type} (R : α → α → Prop) (l : List α)
    (h : ∀ a ∈ l, ∀ b ∈ l, R a b) : l.Pairwise R := by
  induction l with
  | nil => exact List.Pairwise.nil
  | cons a as ih =>
    refine List.pairwise_cons.mpr ⟨?_, ?_⟩
    · intro b hb
      exact h a (List.mem_cons_self _ _) b (List.mem_cons_of_mem _ hb)
    · exact ih (fun x hx y hy =>
        h x (List.mem_cons_of_mem _ hx) y (List.mem_cons_of_mem _ hy))

theorem candidates_pairwise (kw sem gr : List (Nat × ℚ)) :
    (candidates kw sem gr).Pairwise
      (fun a b => stagePriority a.tag ≤ stagePriority b.tag) := by
  unfold candidates
  refine List.pairwise_append.mpr
    ⟨List.pairwise_append.mpr ⟨?_, ?_, ?_⟩, ?_, ?_⟩
  · refine pairwise_of_forall_mem _ _ (fun a ha b hb => ?_)
    obtain ⟨p, -, rfl⟩ := List.mem_map.mp ha
    obtain ⟨q, -, rfl⟩ := List.mem_map.mp hb
    exact le_refl _
  · refine pairwise_of_forall_mem _ _ (fun a ha b hb => ?_)
    obtain ⟨p, -, rfl⟩ := List.mem_map.mp ha
    obtain ⟨q, -, rfl⟩ := List.mem_map.mp hb
    exact le_refl _
  · intro a ha b hb
    obtain ⟨p, -, rfl⟩ := List.mem_map.mp ha
    obtain ⟨q, -, rfl⟩ := List.mem_map.mp hb
    exact Nat.zero_le _
  · refine pairwise_of_forall_mem _ _ (fun a ha b hb => ?_)
    obtain ⟨p, -, rfl⟩ := List.mem_map.mp ha
    obtain ⟨q, -, rfl⟩ := List.mem_map.mp hb
    exact le_refl _
  · intro a ha b hb
    obtain ⟨q, -, rfl⟩ := List.mem_map.mp hb
    rcases List.mem_append.mp ha with h1 | h1
    · obtain ⟨p, -, rfl⟩ := List.mem_map.mp h1
      exact Nat.zero_le _
    · obtain ⟨p, -, rfl⟩ := List.mem_map.mp h1
      exact Nat.le_succ 1

theorem countP_filterMap_bestFor (cands : List DocumentResult) (d : Nat) :
    ∀ ks : List Nat, ks.Nodup →
      (ks.filterMap (bestFor cands)).countP (fun r => r.docId == d) =
        if d ∈ ks ∧ (bestFor cands d).isSome = true then 1 else 0 := by
  intro ks
  induction ks with
  | nil =>
    intro _
    simp
  | cons k ks ih =>
    intro hnd
    rcases List.nodup_cons.mp hnd with ⟨hk, hnd2⟩
    rw [List.filterMap_cons]
    cases hbk : bestFor cands k with
    | none =>
      rw [ih hnd2]
      by_cases hdk : d = k
      · subst hdk
        simp [hbk]
      · simp [List.mem_cons, hdk]
    | some r =>
      have hrd : r.docId = k := bestFor_docId cands k r hbk
      rw [List.countP_cons, ih hnd2]
      by_cases hdk : d = k
      · subst hdk
        have hb : (r.docId == d) = true := by simp [hrd]
        simp [hb, hk, hbk]
      · have hb : (r.docId == d) = false := by
          rw [hrd]
          exact beq_eq_false_iff_ne.mpr (fun hh => hdk hh.symm)
        simp [hb, List.mem_cons, hdk]

theorem mem_keys_of_stages (kw sem gr : List (Nat × ℚ)) (d : Nat)
    (h : 2 ≤ stagesContaining d kw sem gr) :
    d ∈ (candidates kw sem gr).map (fun c => c.docId) := by
  have hkeys : (candidates kw sem gr).map (fun c => c.docId) =
      kw.map Prod.fst ++ sem.map Prod.fst ++ gr.map Prod.fst := by
    simp only [candidates, List.map_append, List.map_map]
    rfl
  have hmem : d ∈ kw.map Prod.fst ∨ d ∈ sem.map Prod.fst ∨
      d ∈ gr.map Prod.fst := by
    by_contra hno
    push_neg at hno
    obtain ⟨h1, h2, h3⟩ := hno
    simp [stagesContaining, h1, h2, h3] at h
  rw [hkeys]
  simp only [List.mem_append]
  tauto

/-- Claim C3: in fusion and dedupe, a document produced by more than one
stage appears exactly once in the fused output, carrying the highest of its
stage scores and the provenance tag of the stage that produced that score,
ties broken in stage order keyword, semantic, graph-neighbor; in particular
keyword 1.0 plus semantic 0.3 keeps score 1.0 and tag keyword. -/
theorem fusion_dedupe_highest_score (kw sem gr : List (Nat × ℚ)) (d : Nat)
    (h : 2 ≤ stagesContaining d kw sem gr) :
    ((fuse (candidates kw sem gr)).countP (fun r => r.docId == d) = 1) ∧
    (∃ r ∈ fuse (candidates kw sem gr),
      r.docId = d ∧ r ∈ candidates kw sem gr ∧
      (∀ c ∈ candidates kw sem gr, c.docId = d → c.score ≤ r.score) ∧
      (∀ c ∈ candidates kw sem gr, c.docId = d → c.score = r.score →
        stagePriority r.tag ≤ stagePriority c.tag)) ∧
    fuse (candidates [(d, 1)] [(d, mkRat 3 10)] []) =
      [⟨d, 1, Stage.keyword⟩] := by
  have hkeys := mem_keys_of_stages kw sem gr d h
  have hsome := bestFor_isSome_of_mem (candidates kw sem gr) d hkeys
  obtain ⟨r, hr⟩ := Option.isSome_iff_exists.mp hsome
  obtain ⟨hrmem, hrd, hmax, htie⟩ :=
    bestFor_spec (candidates kw sem gr) d r (candidates_pairwise kw sem gr) hr
  refine ⟨?_, ?_, ?_⟩
  · have := countP_filterMap_bestFor (candidates kw sem gr) d
      ((candidates kw sem gr).map (fun c => c.docId)).dedup
      (List.nodup_dedup _)
    rw [fuse, this]
    simp [List.mem_dedup.mpr hkeys, hsome]
  · refine ⟨r, ?_, hrd, hrmem, hmax, htie⟩
    exact List.mem_filterMap.mpr ⟨d, List.mem_dedup.mpr hkeys, hr⟩
  · have hne : ¬ ((1 : ℚ) < mkRat 3 10) := by decide
    simp [candidates, fuse, bestFor, pickBetter, List.dedup_cons_of_mem,
      List.filterMap_cons, hne]

theorem fusion_dedupe_highest_score_witness :
    2 ≤ stagesContaining 5 [(5, 1)] [(5, mkRat 3 10)] [] ∧
    fuse (candidates [(5, 1)] [(5, mkRat 3 10)] []) =
      [⟨5, 1, Stage.keyword⟩] :=
  ⟨by decide,
   (fusion_dedupe_highest_score [(5, 1)] [(5, mkRat 3 10)] [] 5 (by decide)).2.2⟩

theorem decodeNode_encodeNode (n : GNode) : decodeNode (encodeNode n) = some n := by
  cases n with
  | doc d =>
    cases d with
    | mk i t b a c => cases t <;> rfl
  | author n => rfl
  | community n => rfl
  | entity e =>
    cases e with
    | mk n t o c s => cases t <;> rfl

theorem decodeEdge_encodeEdge (e : GEdge) : decodeEdge (encodeEdge e) = some e := by
  cases e <;> rfl

theorem decodeAll_map_encode {α : Type} (dec : SerRow → Option α) (enc : α → SerRow)
    (h : ∀ x, dec (enc x) = some x) (l : List α) :
    decodeAll dec (l.map enc) = some l := by
  induction l with
  | nil => rfl
  | cons a as ih => simp [decodeAll, h, ih]

/-- Claim C6: loading the persisted graph artifact after saving it reproduces
a graph equal to the original - the same node list, edge list and weights. -/
theorem graph_save_load_roundtrip (g : Graph) : load (save g) = some g := by
  cases g with
  | mk ns es =>
    simp [load, save, decodeAll_map_encode decodeNode encodeNode decodeNode_encodeNode,
      decodeAll_map_encode decodeEdge encodeEdge decodeEdge_encodeEdge]

/-- Claim C7: the knowledge-graph builder is deterministic - two runs on
identical inputs produce graphs with identical node and edge lists (and hence
identical edge weights). -/
theorem build_deterministic (d1 d2 : List Doc) (a1 a2 : List String)
    (c1 c2 : List String) (e1 e2 : List (Nat × RawEntity))
    (hd : d1 = d2) (ha : a1 = a2) (hc : c1 = c2) (he : e1 = e2) :
    (build d1 a1 c1 e1).nodes = (build d2 a2 c2 e2).nodes ∧
    (build d1 a1 c1 e1).edges = (build d2 a2 c2 e2).edges := by
  subst hd
  subst ha
  subst hc
  subst he
  exact ⟨rfl, rfl⟩

theorem build_deterministic_witness :
    (build [⟨1, none, "b", "a", "c"⟩] ["a"] ["c"] []).nodes =
      (build [⟨1, none, "b", "a", "c"⟩] ["a"] ["c"] []).nodes ∧
    (build [⟨1, none, "b", "a", "c"⟩] ["a"] ["c"] []).edges =
      (build [⟨1, none, "b", "a", "c"⟩] ["a"] ["c"] []).edges :=
  build_deterministic [⟨1, none, "b", "a", "c"⟩] [⟨1, none, "b", "a", "c"⟩]
    ["a"] ["a"] ["c"] ["c"] [] [] rfl rfl rfl rfl

/-- Claim C5: on every service failure mode, extract still succeeds with the
deterministic fallback - the heuristic entity list and the neutral sentiment
0 - and batch ingestion drops no document. -/
theorem extract_fallback_on_failure (o : ServiceOutcome) (text : String)
    (docs : List Doc) (h : isServiceFailure o = true) :
    extract o text = (heuristicEntities text, 0) ∧
    (extract o text).2 = 0 ∧
    (ingestDocs o docs).length = docs.length := by
  cases o with
  | ok es s => simp [isServiceFailure] at h
  | unavailable => exact ⟨rfl, rfl, by simp [ingestDocs]⟩
  | timeout => exact ⟨rfl, rfl, by simp [ingestDocs]⟩
  | malformed => exact ⟨rfl, rfl, by simp [ingestDocs]⟩

theorem extract_fallback_on_failure_witness :
    extract ServiceOutcome.timeout "Austin is great" =
      (heuristicEntities "Austin is great", 0) ∧
    (extract ServiceOutcome.timeout "Austin is great").2 = 0 ∧
    (ingestDocs ServiceOutcome.timeout [⟨1, none, "b", "a", "c"⟩]).length =
      [(⟨1, none, "b", "a", "c"⟩ : Doc)].length :=
  extract_fallback_on_failure ServiceOutcome.timeout "Austin is great"
    [⟨1, none, "b", "a", "c"⟩] rfl

/-- Claim C2: for every query and limit, the hybrid retriever returns at most
limit results. -/
theorem query_length_le_limit (g : GraphStore) (sim : List ℚ → List ℚ → ℚ)
    (qvec : Option (List ℚ)) (q : String) (limit : Nat) :
    (query g sim qvec q limit).length ≤ limit := by
  simp only [query, List.length_take]
  exact Nat.min_le_left _ _

/-- Claim C1: the query interface exposed to the chat caller always returns a
string and never raises - the empty string when the persisted graph is
missing or corrupt, and the empty string when the retriever finds nothing. -/
theorem retrieve_empty_on_no_context (sim : List ℚ → List ℚ → ℚ)
    (qvec : Option (List ℚ)) (q : String) (limit : Nat) :
    retrieve none sim qvec q limit = "" ∧
    ∀ g : GraphStore, query g sim qvec q limit = [] →
      retrieve (some g) sim qvec q limit = "" := by
  refine ⟨rfl, ?_⟩
  intro g h
  show format g (query g sim qvec q limit) defaultMaxContextChars = ""
  rw [h]
  rfl

theorem retrieve_empty_on_no_context_witness :
    retrieve none (fun _ _ => 0) none "Austin" 3 = "" ∧
    query ⟨[], [], []⟩ (fun _ _ => 0) none "Austin" 3 = [] ∧
    retrieve (some ⟨[], [], []⟩) (fun _ _ => 0) none "Austin" 3 = "" :=
  ⟨(retrieve_empty_on_no_context (fun _ _ => 0) none "Austin" 3).1, rfl,
   (retrieve_empty_on_no_context (fun _ _ => 0) none "Austin" 3).2 ⟨[], [], []⟩ rfl⟩

theorem deletePrompt_contract_witness :
    ((deletePrompt "p1" (some [⟨"p1", "n", "c"⟩])).1 = true →
      (deletePrompt "p1" (some [⟨"p1", "n", "c"⟩])).2 =
        some (((readPrompts (some [⟨"p1", "n", "c"⟩]))).filter
          (fun p => p.id != "p1"))) ∧
    (deletePrompt "p1" (some [⟨"p1", "n", "c"⟩])).1 = true :=
  ⟨(deletePrompt_contract "p1" (some [⟨"p1", "n", "c"⟩])).2.1,
   (deletePrompt_contract "p1" (some [⟨"p1", "n", "c"⟩])).1.mpr
     ⟨⟨"p1", "n", "c"⟩, by simp [readPrompts], rfl⟩⟩

end ChrisBot
